import Mathlib

/-!
# A shallow embedding of the `FSM` class template of `fsm.hpp`

The class template `FSM<States, StatesEnumType, StateData, EventData>` is
embedded as a record of its data members together with one Lean function per
member function.

Modelling conventions.

* A value of `StatesEnumType` is represented by the integer it is cast to when
  it indexes a table (`(int)state`), as a `Nat`.
* The three member arrays have extent `States`.  They are represented by maps
  on `Nat` of which only the indices below `States` belong to the array.  An
  access with an index outside `[0, States)` has no defined behaviour in C++;
  every operation that indexes a table returns `none` in that case.
* A function pointer is an `Option`: `none` is `nullptr`.
* A handler receives `const FSM &` and `StateData &`.  Through the first it can
  observe exactly what the public `const` members expose, `getState()` and
  `getEvent()`; this is the record `Ctx`.  Through the second it may mutate the
  caller's data, so a handler returns the new `StateData` next to its result.
* `run` either returns a state or throws; the outcome is an `Except`.  The
  `StateData` is mutated in place, so the engine after the call is returned in
  both cases, next to the ordered list of calls made through function pointers.
* The mutex is not a field of the record: every function is a single atomic
  step on the record.  What each member function does to the mutex is described
  separately, by the event lists of `mutexEvents` and `constructEvents`.
-/

namespace FsmCpp

/-- The view of the engine a handler or a transition callback has through its
`const FSM &` parameter: the results of `getState()` and `getEvent()`. -/
structure Ctx (EventData : Type) where
  state : Nat
  event : Option EventData
  deriving DecidableEq

/-- The type `StatesEnumType (*)(const FSM &, StateData &)`. -/
abbrev stateFunctionT (StateData EventData : Type) : Type :=
  Ctx EventData → StateData → Nat × StateData

/-- The type `void (*)(const FSM &, StateData &)`. -/
abbrev transitionFunctionT (StateData EventData : Type) : Type :=
  Ctx EventData → StateData → StateData

/-- The data members of `FSM` (the mutex apart), in declaration order. -/
structure FSM (States : Nat) (StateData EventData : Type) where
  transitionFunctions : Nat → Nat → Option (transitionFunctionT StateData EventData)
  allowedTransitions : Nat → Nat → Bool
  stateFunctions : Nat → Option (stateFunctionT StateData EventData)
  currentState : Nat
  stateData : StateData
  event : Option EventData

/-- Modelled from the spec: the two exception types of
`errors/custom_exceptions.hpp`, which is not among the sources; each carries the
integer arguments it is constructed with in `run`. -/
inductive FsmError where
  | invalidStateFunction (state : Nat)
  | invalidTransition (src dst : Nat)
  deriving DecidableEq

/-- One call made through a function pointer during `run`, with the arguments
it received. -/
inductive Call (StateData EventData : Type) where
  | stateFunction (state : Nat) (ctx : Ctx EventData) (data : StateData)
  | transitionFunction (src dst : Nat) (ctx : Ctx EventData) (data : StateData)
  deriving DecidableEq

/-- What one call of `run` produces: the value returned or the exception
thrown, the engine afterwards, and the calls made through function pointers in
the order they were made. -/
structure RunStep (States : Nat) (StateData EventData : Type) where
  result : Except FsmError Nat
  fsm : FSM States StateData EventData
  calls : List (Call StateData EventData)

variable {States : Nat} {StateData EventData : Type}

/-- Assignment `t[i] = v` to a one-dimensional table. -/
def set1 {α : Type} (t : Nat → α) (i : Nat) (v : α) : Nat → α :=
  fun k => if k = i then v else t k

/-- Assignment `t[i][j] = v` to a two-dimensional table. -/
def set2 {α : Type} (t : Nat → Nat → α) (i j : Nat) (v : α) : Nat → Nat → α :=
  fun a b => if a = i ∧ b = j then v else t a b

/-- The loop `for (unsigned int i = 0; i < n; i++) body(i)` over a state. -/
def forLoop {σ : Type} : Nat → (Nat → σ → σ) → σ → σ
  | 0, _, s => s
  | n + 1, body, s => body n (forLoop n body s)

/-- The member function `getState`. -/
def getState (m : FSM States StateData EventData) : Nat :=
  m.currentState

/-- The member function `getEvent`. -/
def getEvent (m : FSM States StateData EventData) : Option EventData :=
  m.event

/-- The engine as seen through `const FSM &`. -/
def view (m : FSM States StateData EventData) : Ctx EventData :=
  ⟨getState m, getEvent m⟩

/-- The body of the inner loop of the constructor, for row `i` and column `j`. -/
def clearEdge (i j : Nat) (m : FSM States StateData EventData) :
    FSM States StateData EventData :=
  { m with
    transitionFunctions := set2 m.transitionFunctions i j none
    allowedTransitions := set2 m.allowedTransitions i j false }

/-- The body of the outer loop of the constructor, for row `i`. -/
def clearRow (i : Nat) (m : FSM States StateData EventData) :
    FSM States StateData EventData :=
  forLoop States (clearEdge i) { m with stateFunctions := set1 m.stateFunctions i none }

/-- The constructor `FSM(StateData &, StatesEnumType)`.  `raw` is the object
before the constructor runs: the arrays hold indeterminate values, and only the
member initialisers and the loops give the members their values. -/
def construct (raw : FSM States StateData EventData) (_stateData : StateData)
    (initialState : Nat) : FSM States StateData EventData :=
  let m0 : FSM States StateData EventData :=
    { raw with currentState := initialState, stateData := _stateData, event := none }
  let m1 := forLoop States clearRow m0
  { m1 with event := none }

/-- The member function `run`. -/
def run (m : FSM States StateData EventData) : Option (RunStep States StateData EventData) :=
  if m.currentState < States then
    match m.stateFunctions m.currentState with
    | none => some ⟨.error (.invalidStateFunction m.currentState), m, []⟩
    | some f =>
      let out := f (view m) m.stateData
      let requestedState := out.1
      let m1 : FSM States StateData EventData := { m with stateData := out.2 }
      let c1 : Call StateData EventData := .stateFunction m.currentState (view m) m.stateData
      if requestedState < States then
        if m1.allowedTransitions m1.currentState requestedState then
          match m1.transitionFunctions m1.currentState requestedState with
          | some transitionFunction =>
            let m2 : FSM States StateData EventData :=
              { m1 with stateData := transitionFunction (view m1) m1.stateData }
            some ⟨.ok requestedState,
              { m2 with currentState := requestedState, event := none },
              [c1, .transitionFunction m1.currentState requestedState (view m1) m1.stateData]⟩
          | none =>
            some ⟨.ok requestedState,
              { m1 with currentState := requestedState, event := none }, [c1]⟩
        else
          some ⟨.error (.invalidTransition m1.currentState requestedState), m1, [c1]⟩
      else none
  else none

/-- The member function `triggerEvent`. -/
def triggerEvent (m : FSM States StateData EventData) (data : EventData) :
    FSM States StateData EventData :=
  { m with event := some data }

/-- The member function `setStateFunction`. -/
def setStateFunction (m : FSM States StateData EventData) (state : Nat)
    (stateFunction : Option (stateFunctionT StateData EventData)) :
    Option (FSM States StateData EventData) :=
  if state < States then
    some { m with stateFunctions := set1 m.stateFunctions state stateFunction }
  else none

/-- The three-parameter overload of the member function `allowTransition`. -/
def allowTransitionWith (m : FSM States StateData EventData) (src dst : Nat)
    (transitionFunction : Option (transitionFunctionT StateData EventData)) :
    Option (FSM States StateData EventData) :=
  if src < States ∧ dst < States then
    some { m with
      allowedTransitions := set2 m.allowedTransitions src dst true
      transitionFunctions := set2 m.transitionFunctions src dst transitionFunction }
  else none

/-- The two-parameter overload of the member function `allowTransition`. -/
def allowTransition (m : FSM States StateData EventData) (src dst : Nat) :
    Option (FSM States StateData EventData) :=
  if src < States ∧ dst < States then
    some { m with allowedTransitions := set2 m.allowedTransitions src dst true }
  else none

/-! ## Sequences of operations -/

/-- One call of a public member function on an existing engine, with its
arguments. -/
inductive Operation (StateData EventData : Type) where
  | run
  | triggerEvent (data : EventData)
  | getEvent
  | getState
  | setStateFunction (state : Nat) (stateFunction : Option (stateFunctionT StateData EventData))
  | allowTransitionWith (src dst : Nat)
      (transitionFunction : Option (transitionFunctionT StateData EventData))
  | allowTransition (src dst : Nat)

/-- The engine after one operation; `none` when the operation indexes a table
out of range.  The two `const` member functions return the engine as it is. -/
def applyOp (m : FSM States StateData EventData) :
    Operation StateData EventData → Option (FSM States StateData EventData)
  | .run => (run m).map fun r => r.fsm
  | .triggerEvent data => some (triggerEvent m data)
  | .getEvent => some m
  | .getState => some m
  | .setStateFunction state stateFunction => setStateFunction m state stateFunction
  | .allowTransitionWith src dst transitionFunction =>
      allowTransitionWith m src dst transitionFunction
  | .allowTransition src dst => allowTransition m src dst

/-- The engine after a sequence of operations, first to last. -/
def runOps (m : FSM States StateData EventData) :
    List (Operation StateData EventData) → Option (FSM States StateData EventData)
  | [] => some m
  | op :: ops => (applyOp m op).bind fun m1 => runOps m1 ops

/-- Whether the operation is a `run` that returns normally on this engine. -/
def successfulRun (m : FSM States StateData EventData) :
    Operation StateData EventData → Bool
  | .run =>
    match run m with
    | some ⟨.ok _, _, _⟩ => true
    | _ => false
  | _ => false

/-- The caller's obligation on the arguments of an operation: every state
passed to a registration is below `States`, and a handler that is registered
returns only states below `States`. -/
def Operation.inRange (States : Nat) : Operation StateData EventData → Prop
  | .setStateFunction state stateFunction =>
    state < States ∧ ∀ f, stateFunction = some f → ∀ ctx d, (f ctx d).1 < States
  | .allowTransitionWith src dst _ => src < States ∧ dst < States
  | .allowTransition src dst => src < States ∧ dst < States
  | _ => True

/-- The context a call through a function pointer received. -/
def Call.ctx : Call StateData EventData → Ctx EventData
  | .stateFunction _ c _ => c
  | .transitionFunction _ _ c _ => c

/-! ## The mutex -/

/-- What a member function does, as far as the mutex is concerned, in order. -/
inductive MutexEvent where
  | acquire
  | release
  | member
  | invoke
  deriving DecidableEq

/-- A function body that starts with `std::scoped_lock lck(mtx);`: the mutex is
acquired first and released when the scope is left, by `return` or by `throw`. -/
def scopedLock (body : List MutexEvent) : List MutexEvent :=
  .acquire :: body ++ [.release]

/-- The statements of `run` after its lock guard: `member` is a read or a write
of a data member, `invoke` a call through a function pointer.  The list ends
where the function returns, throws, or indexes a table out of range. -/
def runBody (m : FSM States StateData EventData) : List MutexEvent :=
  if m.currentState < States then
    match m.stateFunctions m.currentState with
    | none => [.member]
    | some f =>
      if (f (view m) m.stateData).1 < States then
        if m.allowedTransitions m.currentState (f (view m) m.stateData).1 then
          match m.transitionFunctions m.currentState (f (view m) m.stateData).1 with
          | some _ => [.member, .invoke, .member, .member, .invoke, .member, .member, .member]
          | none => [.member, .invoke, .member, .member, .member, .member, .member]
        else [.member, .invoke, .member]
      else [.member, .invoke]
  else []

/-- The events of one operation.  `getEvent` and `getState` have no lock guard
in the source: each is the single statement `return event;` and
`return currentState;`. -/
def mutexEvents (m : FSM States StateData EventData) :
    Operation StateData EventData → List MutexEvent
  | .run => scopedLock (runBody m)
  | .triggerEvent _ => scopedLock [.member]
  | .getEvent => [.member]
  | .getState => [.member]
  | .setStateFunction _ _ => scopedLock [.member]
  | .allowTransitionWith _ _ _ => scopedLock [.member, .member]
  | .allowTransition _ _ => scopedLock [.member]

/-- The events of the constructor body: the lock guard, the two nested loops
and the assignment to `event`.  The member initialisers run before the mutex
member exists and are not listed. -/
def constructEvents (States : Nat) : List MutexEvent :=
  scopedLock
    (forLoop States
        (fun _ tr =>
          forLoop States (fun _ t => t ++ [.member, .member]) (tr ++ [.member]))
        [] ++ [.member])

/-- Whether, from a mutex that is held or not, every read, write and call of
the list happens while the mutex is held, the mutex is never acquired while
held nor released while free, and it is free at the end. -/
def lockDisciplineFrom : Bool → List MutexEvent → Bool
  | held, [] => !held
  | held, .acquire :: tr => !held && lockDisciplineFrom true tr
  | held, .release :: tr => held && lockDisciplineFrom false tr
  | held, .member :: tr => held && lockDisciplineFrom held tr
  | held, .invoke :: tr => held && lockDisciplineFrom held tr

/-- The lock discipline of an operation that starts with the mutex free. -/
def lockDiscipline (tr : List MutexEvent) : Bool :=
  lockDisciplineFrom false tr

/-! ## Trace measures and the concrete engines the theorems are exercised on -/

/-- The number of calls of a transition callback in a trace. -/
def transitionCalls : List (Call StateData EventData) → Nat
  | [] => 0
  | .stateFunction _ _ _ :: cs => transitionCalls cs
  | .transitionFunction _ _ _ _ :: cs => transitionCalls cs + 1

/-- An object before construction whose storage is as far from the initialised
one as possible: every slot holds a non-null pointer, every edge is allowed and
the mailbox holds a value. -/
def indeterminate (States : Nat) (d : StateData) (e : EventData) :
    FSM States StateData EventData where
  transitionFunctions := fun _ _ => some (fun _ x => x)
  allowedTransitions := fun _ _ => true
  stateFunctions := fun _ => some (fun c x => (c.state, x))
  currentState := States + 7
  stateData := d
  event := some e

/-- A handler that counts its calls in the `StateData` and requests state 1. -/
def toOne : stateFunctionT Nat Nat :=
  fun _ d => (1, d + 1)

/-- A handler that counts its calls in the `StateData` and requests state 0. -/
def toZero : stateFunctionT Nat Nat :=
  fun _ d => (0, d + 1)

/-- A callback that records in the `StateData` that it ran, and the state and
the event it observed. -/
def mark : transitionFunctionT Nat Nat :=
  fun c d => d + 100 + 10 * c.state + c.event.getD 0

/-- A two-state engine at state 0 with handler `toOne`, the single legal edge
(0, 1) carrying the callback `mark`, data 5 and event 3 in the mailbox. -/
def legalEngine : FSM 2 Nat Nat where
  transitionFunctions := fun a b => if a = 0 ∧ b = 1 then some mark else none
  allowedTransitions := fun a b => decide (a = 0 ∧ b = 1)
  stateFunctions := fun s => if s = 0 then some toOne else none
  currentState := 0
  stateData := 5
  event := some 3

/-- The engine `legalEngine` with no legal edge at all. -/
def illegalEngine : FSM 2 Nat Nat :=
  { legalEngine with allowedTransitions := fun _ _ => false }

/-- What `run` produces on `legalEngine`: the handler turns the data 5 into 6,
the callback, observing state 0 and event 3, turns 6 into 109. -/
def legalStep : RunStep 2 Nat Nat where
  result := .ok 1
  fsm := { legalEngine with stateData := 109, currentState := 1, event := none }
  calls := [.stateFunction 0 ⟨0, some 3⟩ 5, .transitionFunction 0 1 ⟨0, some 3⟩ 6]

/-- What `run` produces on `illegalEngine`. -/
def illegalStep : RunStep 2 Nat Nat where
  result := .error (.invalidTransition 0 1)
  fsm := { illegalEngine with stateData := 6 }
  calls := [.stateFunction 0 ⟨0, some 3⟩ 5]

/-- The engine `legalEngine` moved to state 1, which has no handler. -/
def inertEngine : FSM 2 Nat Nat :=
  { legalEngine with currentState := 1 }

/-- The engine built by constructing at state 0 with data 5, registering the
handler `toOne` for state 0, registering the edge (0, 1) with the callback
`mark`, and registering the edge (0, 1) again with the two-parameter
`allowTransition`. -/
def reRegistered : Option (FSM 2 Nat Nat) :=
  (setStateFunction (construct (indeterminate 2 0 0) 5 0) 0 (some toOne)).bind fun m1 =>
  (allowTransitionWith m1 0 1 (some mark)).bind fun m2 =>
  allowTransition m2 0 1

/-- The enumerator `Idle` of the three-state scenario. -/
def Idle : Nat := 0

/-- The enumerator `Active` of the three-state scenario. -/
def Active : Nat := 1

/-- The enumerator `Done` of the three-state scenario. -/
def Done : Nat := 2

/-- The handler of `Idle` in the three-state scenario. -/
def idleHandler : stateFunctionT Unit Nat :=
  fun _ d => (Active, d)

/-- The handler of `Active` in the three-state scenario. -/
def activeHandler : stateFunctionT Unit Nat :=
  fun _ d => (Done, d)

/-- The three-state scenario: an engine constructed at `Idle` over any storage,
with the two handlers and the two edges registered. -/
def scenario (raw : FSM 3 Unit Nat) : Option (FSM 3 Unit Nat) :=
  (setStateFunction (construct raw () Idle) Idle (some idleHandler)).bind fun m1 =>
  (setStateFunction m1 Active (some activeHandler)).bind fun m2 =>
  (allowTransition m2 Idle Active).bind fun m3 =>
  allowTransition m3 Active Done

/-- A handler whose request depends on the `StateData` it mutates: it asks
for state 1 on data 0 and for state 0 on any other data, and increments the
data. -/
def flip : stateFunctionT Nat Nat :=
  fun _ d => (if d = 0 then 1 else 0, d + 1)

/-- A two-state engine at state 0 with handler `flip`, data 0, and the
self-edge (0, 0) as its only allowed edge. -/
def retryEngine : FSM 2 Nat Nat where
  transitionFunctions := fun _ _ => none
  allowedTransitions := fun a b => decide (a = 0 ∧ b = 0)
  stateFunctions := fun s => if s = 0 then some flip else none
  currentState := 0
  stateData := 0
  event := none

/-- A sequence of operations with in-range arguments: register `toOne` for
state 0, allow the edge (0, 1) with the callback `mark`, post event 4, run. -/
def sampleOps : List (Operation Nat Nat) :=
  [.setStateFunction 0 (some toOne), .allowTransitionWith 0 1 (some mark),
    .triggerEvent 4, .getEvent, .run, .getState]

/-- A handler that reads the mailbox through its context: it requests the state
whose number is the event (state 0 on an empty mailbox) and adds that number to
the data. -/
def echo : stateFunctionT Nat Nat :=
  fun c d => (c.event.getD 0, d + c.event.getD 0)

/-- A two-state engine at state 0 with handler `echo`, the single legal edge
(0, 1) carrying the callback `mark`, data 5 and event 1 in the mailbox. -/
def echoEngine : FSM 2 Nat Nat where
  transitionFunctions := fun a b => if a = 0 ∧ b = 1 then some mark else none
  allowedTransitions := fun a b => decide (a = 0 ∧ b = 1)
  stateFunctions := fun s => if s = 0 then some echo else none
  currentState := 0
  stateData := 5
  event := some 1

/-- What `run` produces on `echoEngine`: the handler reads the event 1, requests
state 1 and turns the data 5 into 6; the callback, observing state 0 and
event 1, turns 6 into 107. -/
def echoStep : RunStep 2 Nat Nat where
  result := .ok 1
  fsm := { echoEngine with stateData := 107, currentState := 1, event := none }
  calls := [.stateFunction 0 ⟨0, some 1⟩ 5, .transitionFunction 0 1 ⟨0, some 1⟩ 6]

/-! ## The constructor loops -/

theorem forLoop_clearEdge_fields (i n : Nat) (m : FSM States StateData EventData) :
    (forLoop n (clearEdge i) m).stateFunctions = m.stateFunctions ∧
    (forLoop n (clearEdge i) m).currentState = m.currentState ∧
    (forLoop n (clearEdge i) m).stateData = m.stateData ∧
    (forLoop n (clearEdge i) m).event = m.event ∧
    (∀ a b, (forLoop n (clearEdge i) m).transitionFunctions a b =
      if a = i ∧ b < n then none else m.transitionFunctions a b) ∧
    (∀ a b, (forLoop n (clearEdge i) m).allowedTransitions a b =
      if a = i ∧ b < n then false else m.allowedTransitions a b) := by
  induction n with
  | zero => simp [forLoop]
  | succ n ih =>
    obtain ⟨h1, h2, h3, h4, h5, h6⟩ := ih
    refine ⟨h1, h2, h3, h4, ?_, ?_⟩
    · intro a b
      simp only [forLoop, clearEdge, set2, h5]
      split_ifs <;> first | rfl | (exfalso; omega)
    · intro a b
      simp only [forLoop, clearEdge, set2, h6]
      split_ifs <;> first | rfl | (exfalso; omega)

theorem forLoop_clearRow_fields (n : Nat) (m : FSM States StateData EventData) :
    (forLoop n clearRow m).currentState = m.currentState ∧
    (forLoop n clearRow m).stateData = m.stateData ∧
    (forLoop n clearRow m).event = m.event ∧
    (∀ k, (forLoop n clearRow m).stateFunctions k =
      if k < n then none else m.stateFunctions k) ∧
    (∀ a b, (forLoop n clearRow m).transitionFunctions a b =
      if a < n ∧ b < States then none else m.transitionFunctions a b) ∧
    (∀ a b, (forLoop n clearRow m).allowedTransitions a b =
      if a < n ∧ b < States then false else m.allowedTransitions a b) := by
  induction n with
  | zero => simp [forLoop]
  | succ n ih =>
    obtain ⟨h1, h2, h3, h4, h5, h6⟩ := ih
    refine ⟨?_, ?_, ?_, ?_, ?_, ?_⟩
    · simp only [forLoop, clearRow]
      rw [(forLoop_clearEdge_fields _ _ _).2.1]
      exact h1
    · simp only [forLoop, clearRow]
      rw [(forLoop_clearEdge_fields _ _ _).2.2.1]
      exact h2
    · simp only [forLoop, clearRow]
      rw [(forLoop_clearEdge_fields _ _ _).2.2.2.1]
      exact h3
    · intro k
      simp only [forLoop, clearRow]
      rw [(forLoop_clearEdge_fields _ _ _).1]
      simp only [set1, h4]
      split_ifs <;> first | rfl | (exfalso; omega)
    · intro a b
      simp only [forLoop, clearRow]
      rw [(forLoop_clearEdge_fields _ _ _).2.2.2.2.1 a b]
      simp only [h5]
      split_ifs <;> first | rfl | (exfalso; omega)
    · intro a b
      simp only [forLoop, clearRow]
      rw [(forLoop_clearEdge_fields _ _ _).2.2.2.2.2 a b]
      simp only [h6]
      split_ifs <;> first | rfl | (exfalso; omega)

/-! ## The run step -/

/-- The path of `run` on which the edge is allowed and has a callback. -/
theorem run_eq_of_callback (m : FSM States StateData EventData)
    (h : stateFunctionT StateData EventData)
    (cb : transitionFunctionT StateData EventData)
    (hcur : m.currentState < States)
    (hreg : m.stateFunctions m.currentState = some h)
    (hreq : (h (view m) m.stateData).1 < States)
    (hal : m.allowedTransitions m.currentState (h (view m) m.stateData).1 = true)
    (hcb : m.transitionFunctions m.currentState (h (view m) m.stateData).1 = some cb) :
    run m = some ⟨.ok (h (view m) m.stateData).1,
      { m with
        stateData := cb (view m) (h (view m) m.stateData).2
        currentState := (h (view m) m.stateData).1
        event := none },
      [.stateFunction m.currentState (view m) m.stateData,
        .transitionFunction m.currentState (h (view m) m.stateData).1 (view m)
          (h (view m) m.stateData).2]⟩ := by
  unfold run
  simp only [hcur, hreg, hreq, hal, hcb, if_true]
  rfl

/-- The path of `run` on which the edge is allowed and has no callback. -/
theorem run_eq_of_no_callback (m : FSM States StateData EventData)
    (h : stateFunctionT StateData EventData)
    (hcur : m.currentState < States)
    (hreg : m.stateFunctions m.currentState = some h)
    (hreq : (h (view m) m.stateData).1 < States)
    (hal : m.allowedTransitions m.currentState (h (view m) m.stateData).1 = true)
    (hcb : m.transitionFunctions m.currentState (h (view m) m.stateData).1 = none) :
    run m = some ⟨.ok (h (view m) m.stateData).1,
      { m with
        stateData := (h (view m) m.stateData).2
        currentState := (h (view m) m.stateData).1
        event := none },
      [.stateFunction m.currentState (view m) m.stateData]⟩ := by
  unfold run
  simp only [hcur, hreg, hreq, hal, hcb, if_true]

/-- The path of `run` on which the edge is not allowed. -/
theorem run_eq_of_not_allowed (m : FSM States StateData EventData)
    (h : stateFunctionT StateData EventData)
    (hcur : m.currentState < States)
    (hreg : m.stateFunctions m.currentState = some h)
    (hreq : (h (view m) m.stateData).1 < States)
    (hal : m.allowedTransitions m.currentState (h (view m) m.stateData).1 = false) :
    run m = some ⟨.error (.invalidTransition m.currentState (h (view m) m.stateData).1),
      { m with stateData := (h (view m) m.stateData).2 },
      [.stateFunction m.currentState (view m) m.stateData]⟩ := by
  unfold run
  simp only [hcur, hreg, hreq, hal, if_true]
  rfl

/-- The path of `run` on which the current state has no handler. -/
theorem run_eq_of_no_handler (m : FSM States StateData EventData)
    (hcur : m.currentState < States)
    (hnone : m.stateFunctions m.currentState = none) :
    run m = some ⟨.error (.invalidStateFunction m.currentState), m, []⟩ := by
  unfold run
  simp only [hcur, hnone, if_true]

/-- C1: when the current state `S` is in range and has a handler that requests
an in-range state `S'`, `run` returns normally if and only if the edge
`(S, S')` is allowed; when it is not, `run` throws `InvalidTransition(S, S')`
and `getState` still gives `S` afterwards. -/
theorem run_succeeds_iff_edge_allowed (m : FSM States StateData EventData)
    (h : stateFunctionT StateData EventData)
    (hcur : m.currentState < States)
    (hreg : m.stateFunctions m.currentState = some h)
    (hreq : (h (view m) m.stateData).1 < States) :
    ∃ r, run m = some r ∧
      ((∃ v, r.result = .ok v) ↔
        m.allowedTransitions m.currentState (h (view m) m.stateData).1 = true) ∧
      (m.allowedTransitions m.currentState (h (view m) m.stateData).1 = false →
        r.result = .error (.invalidTransition m.currentState (h (view m) m.stateData).1) ∧
        getState r.fsm = getState m) := by
  unfold run
  simp only [hcur, hreg, hreq, if_true]
  cases hal : m.allowedTransitions m.currentState (h (view m) m.stateData).1 with
  | false => simp [getState]
  | true =>
    cases htf : m.transitionFunctions m.currentState (h (view m) m.stateData).1 with
    | none => simp
    | some t => simp

/-- The theorem `run_succeeds_iff_edge_allowed` at `illegalEngine`. -/
theorem run_succeeds_iff_edge_allowed_witness :
    ∃ r, run illegalEngine = some r ∧
      ((∃ v, r.result = .ok v) ↔ illegalEngine.allowedTransitions 0 1 = true) ∧
      (illegalEngine.allowedTransitions 0 1 = false →
        r.result = .error (.invalidTransition 0 1) ∧ getState r.fsm = 0) :=
  run_succeeds_iff_edge_allowed illegalEngine toOne (by decide) rfl (by decide)

/-- Every normal return of `run` comes from the path on which a handler was
found, its request was in range and the edge was allowed. -/
theorem run_ok_inv (m : FSM States StateData EventData)
    (r : RunStep States StateData EventData) (v : Nat)
    (hrun : run m = some r) (hok : r.result = .ok v) :
    ∃ h, m.stateFunctions m.currentState = some h ∧
      (h (view m) m.stateData).1 = v ∧
      m.allowedTransitions m.currentState v = true ∧
      r.fsm.currentState = v ∧ r.fsm.event = none := by
  unfold run at hrun
  split at hrun
  · split at hrun
    · cases hrun
      cases hok
    · rename_i f hf
      simp only at hrun
      split at hrun
      · split at hrun
        · rename_i hal
          split at hrun <;>
            (cases hrun
             cases hok
             exact ⟨f, hf, rfl, hal, rfl, rfl⟩)
        · cases hrun
          cases hok
      · cases hrun
  · cases hrun

/-- Every `InvalidTransition` thrown by `run` comes from the path on which a
handler was found and its in-range request was not an allowed edge; the engine
afterwards differs from the one before in the `StateData` only. -/
theorem run_invalidTransition_inv (m : FSM States StateData EventData)
    (r : RunStep States StateData EventData) (a b : Nat)
    (hrun : run m = some r) (herr : r.result = .error (.invalidTransition a b)) :
    ∃ h, m.stateFunctions m.currentState = some h ∧
      a = m.currentState ∧ b = (h (view m) m.stateData).1 ∧
      m.allowedTransitions a b = false ∧
      r.fsm = { m with stateData := (h (view m) m.stateData).2 } ∧
      r.calls = [.stateFunction m.currentState (view m) m.stateData] := by
  unfold run at hrun
  split at hrun
  · split at hrun
    · cases hrun
      cases herr
    · rename_i f hf
      simp only at hrun
      split at hrun
      · split at hrun
        · split at hrun <;>
            (cases hrun
             cases herr)
        · rename_i hal
          cases hrun
          cases herr
          exact ⟨f, hf, rfl, rfl, by simpa using hal, rfl, rfl⟩
      · cases hrun
  · cases hrun

/-- C2: whenever `run` returns normally, the value returned is the state the
handler of the current state requested, `getState` afterwards gives that state
and `getEvent` afterwards gives nothing, whatever the mailbox held before. -/
theorem run_ok_state_and_mailbox (m : FSM States StateData EventData)
    (r : RunStep States StateData EventData) (v : Nat)
    (hrun : run m = some r) (hok : r.result = .ok v) :
    (∃ h, m.stateFunctions m.currentState = some h ∧ (h (view m) m.stateData).1 = v) ∧
      getState r.fsm = v ∧ getEvent r.fsm = none := by
  obtain ⟨h, hreg, hv, _, hst, hev⟩ := run_ok_inv m r v hrun hok
  exact ⟨⟨h, hreg, hv⟩, hst, hev⟩

/-- The theorem `run_ok_state_and_mailbox` at `legalEngine`, whose mailbox
holds the event 3 before the call. -/
theorem run_ok_state_and_mailbox_witness :
    getEvent legalEngine = some 3 ∧ run legalEngine = some legalStep ∧
    legalStep.result = .ok 1 ∧
    ((∃ h, legalEngine.stateFunctions legalEngine.currentState = some h ∧
        (h (view legalEngine) legalEngine.stateData).1 = 1) ∧
      getState legalStep.fsm = 1 ∧ getEvent legalStep.fsm = none) :=
  ⟨rfl, rfl, rfl, run_ok_state_and_mailbox legalEngine legalStep 1 rfl rfl⟩

/-- C3: when the current state `S` is in range and has no handler, `run` throws
`InvalidStateFunction(S)`, calls nothing through a function pointer, and leaves
every member of the engine as it was. -/
theorem run_without_handler (m : FSM States StateData EventData)
    (hcur : m.currentState < States)
    (hnone : m.stateFunctions m.currentState = none) :
    ∃ r, run m = some r ∧
      r.result = .error (.invalidStateFunction m.currentState) ∧
      r.calls = [] ∧ r.fsm = m := by
  refine ⟨⟨.error (.invalidStateFunction m.currentState), m, []⟩, ?_, rfl, rfl, rfl⟩
  unfold run
  simp only [hcur, if_true]
  split
  · rfl
  · rename_i f hf
    rw [hnone] at hf
    cases hf

/-- The theorem `run_without_handler` at `inertEngine`. -/
theorem run_without_handler_witness :
    ∃ r, run inertEngine = some r ∧
      r.result = .error (.invalidStateFunction 1) ∧
      r.calls = [] ∧ r.fsm = inertEngine :=
  run_without_handler inertEngine (by decide) rfl

/-- C4: when `run` throws `InvalidTransition`, `getEvent` afterwards gives
exactly what it gave before the call. -/
theorem run_invalidTransition_keeps_mailbox (m : FSM States StateData EventData)
    (r : RunStep States StateData EventData) (a b : Nat)
    (hrun : run m = some r) (herr : r.result = .error (.invalidTransition a b)) :
    getEvent r.fsm = getEvent m := by
  obtain ⟨h, _, _, _, _, hfsm, _⟩ := run_invalidTransition_inv m r a b hrun herr
  rw [hfsm]
  rfl

/-- The theorem `run_invalidTransition_keeps_mailbox` at `illegalEngine`, whose
mailbox holds the event 3. -/
theorem run_invalidTransition_keeps_mailbox_witness :
    getEvent illegalEngine = some 3 ∧ run illegalEngine = some illegalStep ∧
    illegalStep.result = .error (.invalidTransition 0 1) ∧
    getEvent illegalStep.fsm = getEvent illegalEngine :=
  ⟨rfl, rfl, rfl, run_invalidTransition_keeps_mailbox illegalEngine illegalStep 0 1 rfl rfl⟩

/-! ## The mailbox -/

/-- C5: `triggerEvent(a)` followed by `triggerEvent(b)` leaves `getEvent` equal
to `b`, the engine being the one a single `triggerEvent(b)` gives, and
`triggerEvent` changes no member but the mailbox. -/
theorem triggerEvent_last_write_wins (m : FSM States StateData EventData)
    (a b : EventData) :
    getEvent (triggerEvent (triggerEvent m a) b) = some b ∧
    triggerEvent (triggerEvent m a) b = triggerEvent m b ∧
    triggerEvent m a = { m with event := some a } ∧
    (triggerEvent m a).transitionFunctions = m.transitionFunctions ∧
    (triggerEvent m a).allowedTransitions = m.allowedTransitions ∧
    (triggerEvent m a).stateFunctions = m.stateFunctions ∧
    getState (triggerEvent m a) = getState m ∧
    (triggerEvent m a).stateData = m.stateData :=
  ⟨rfl, rfl, rfl, rfl, rfl, rfl, rfl, rfl⟩

/-! ## Transition callbacks -/

/-- C6: a normal return of `run` across an edge `(S, S')` that has a callback
makes exactly two calls, first the handler and then the callback; the callback
receives the `StateData` as the handler left it and a context in which
`getState` still gives `S`, and the `StateData` afterwards is what the callback
made of the handler's output. -/
theorem run_invokes_callback_once (m : FSM States StateData EventData)
    (h : stateFunctionT StateData EventData)
    (cb : transitionFunctionT StateData EventData)
    (hcur : m.currentState < States)
    (hreg : m.stateFunctions m.currentState = some h)
    (hreq : (h (view m) m.stateData).1 < States)
    (hal : m.allowedTransitions m.currentState (h (view m) m.stateData).1 = true)
    (hcb : m.transitionFunctions m.currentState (h (view m) m.stateData).1 = some cb) :
    ∃ r ctx, run m = some r ∧
      r.result = .ok (h (view m) m.stateData).1 ∧
      r.calls = [.stateFunction m.currentState (view m) m.stateData,
        .transitionFunction m.currentState (h (view m) m.stateData).1 ctx
          (h (view m) m.stateData).2] ∧
      transitionCalls r.calls = 1 ∧
      ctx.state = getState m ∧ ctx.event = getEvent m ∧
      r.fsm.stateData = cb ctx (h (view m) m.stateData).2 ∧
      getState r.fsm = (h (view m) m.stateData).1 := by
  refine ⟨⟨.ok (h (view m) m.stateData).1,
      { m with
        stateData := cb (view m) (h (view m) m.stateData).2
        currentState := (h (view m) m.stateData).1
        event := none },
      [.stateFunction m.currentState (view m) m.stateData,
        .transitionFunction m.currentState (h (view m) m.stateData).1 (view m)
          (h (view m) m.stateData).2]⟩,
    view m, ?_, rfl, rfl, rfl, rfl, rfl, rfl, rfl⟩
  unfold run
  simp only [hcur, hreg, hreq, hal, hcb, if_true]
  rfl

/-- The theorem `run_invokes_callback_once` at `legalEngine`: the handler turns
the data 5 into 6, and the callback `mark` turns 6 into 109 because it observes
state 0 and event 3. -/
theorem run_invokes_callback_once_witness :
    ∃ r ctx, run legalEngine = some r ∧
      r.result = .ok 1 ∧
      r.calls = [.stateFunction 0 (view legalEngine) 5, .transitionFunction 0 1 ctx 6] ∧
      transitionCalls r.calls = 1 ∧
      ctx.state = 0 ∧ ctx.event = some 3 ∧
      r.fsm.stateData = mark ctx 6 ∧
      getState r.fsm = 1 :=
  run_invokes_callback_once legalEngine toOne mark (by decide) rfl (by decide) rfl rfl

/-! ## Registration -/

/-- C7: the claim that the two-parameter `allowTransition` leaves the edge
without a callback fails on `reRegistered`: the edge (0, 1) is allowed and
still carries the callback attached before, and the following `run` returns 1
after one callback call that turned the handler's data 6 into 106. -/
theorem allowTransition_no_callback_counterexample :
    (reRegistered.map fun m =>
        (m.allowedTransitions 0 1, (m.transitionFunctions 0 1).isSome)) = some (true, true) ∧
    ((reRegistered.bind run).map fun r =>
        (r.result, transitionCalls r.calls, r.fsm.stateData)) = some (.ok 1, 1, 106) :=
  ⟨rfl, rfl⟩

/-- C7, amended: for an in-range edge, the two-parameter `allowTransition`
marks the edge allowed and leaves its callback slot as it was, while the
three-parameter overload marks it allowed and stores the given callback; a
following `run` across the edge returns normally and calls a transition
callback exactly when the slot held one before the two-parameter call. -/
theorem allowTransition_allows_and_keeps_callback (m : FSM States StateData EventData)
    (src dst : Nat) (hsrc : src < States) (hdst : dst < States) :
    ∃ m2, allowTransition m src dst = some m2 ∧
      m2.allowedTransitions src dst = true ∧
      m2.transitionFunctions src dst = m.transitionFunctions src dst ∧
      (∀ cb, ∃ m3, allowTransitionWith m src dst cb = some m3 ∧
        m3.allowedTransitions src dst = true ∧ m3.transitionFunctions src dst = cb) ∧
      (∀ h, m.currentState = src → m.stateFunctions src = some h →
        (h (view m) m.stateData).1 = dst →
        ∃ r, run m2 = some r ∧ r.result = .ok dst ∧
          transitionCalls r.calls = if (m.transitionFunctions src dst).isSome then 1 else 0) := by
  refine ⟨{ m with allowedTransitions := set2 m.allowedTransitions src dst true },
    ?_, ?_, rfl, ?_, ?_⟩
  · simp [allowTransition, hsrc, hdst]
  · simp [set2]
  · intro cb
    refine ⟨{ m with
        allowedTransitions := set2 m.allowedTransitions src dst true
        transitionFunctions := set2 m.transitionFunctions src dst cb }, ?_, ?_, ?_⟩
    · simp [allowTransitionWith, hsrc, hdst]
    · simp [set2]
    · simp [set2]
  · intro h hcur hreg hreq
    subst hcur
    subst hreq
    have hal : set2 m.allowedTransitions m.currentState (h (view m) m.stateData).1 true
        m.currentState (h (view m) m.stateData).1 = true := by simp [set2]
    cases htf : m.transitionFunctions m.currentState (h (view m) m.stateData).1 with
    | none =>
      exact ⟨_, run_eq_of_no_callback _ h hsrc hreg hdst hal htf, rfl, rfl⟩
    | some t =>
      exact ⟨_, run_eq_of_callback _ h t hsrc hreg hdst hal htf, rfl, rfl⟩

/-- The theorem `allowTransition_allows_and_keeps_callback` at the edge (0, 1)
of `legalEngine`, which carries the callback `mark`. -/
theorem allowTransition_allows_and_keeps_callback_witness :
    ∃ m2, allowTransition legalEngine 0 1 = some m2 ∧
      m2.allowedTransitions 0 1 = true ∧
      m2.transitionFunctions 0 1 = legalEngine.transitionFunctions 0 1 ∧
      (∀ cb, ∃ m3, allowTransitionWith legalEngine 0 1 cb = some m3 ∧
        m3.allowedTransitions 0 1 = true ∧ m3.transitionFunctions 0 1 = cb) ∧
      (∀ h, legalEngine.currentState = 0 → legalEngine.stateFunctions 0 = some h →
        (h (view legalEngine) legalEngine.stateData).1 = 1 →
        ∃ r, run m2 = some r ∧ r.result = .ok 1 ∧
          transitionCalls r.calls =
            if (legalEngine.transitionFunctions 0 1).isSome then 1 else 0) :=
  allowTransition_allows_and_keeps_callback legalEngine 0 1 (by decide) (by decide)

/-- C8: for an in-range state `s`, after `setStateFunction(s, h1)` followed by
`setStateFunction(s, h2)` the slot of `s` holds `h2`, every other slot is as
before, and the engine is the one a single `setStateFunction(s, h2)` gives; so
with current state `s`, `run` throws `InvalidStateFunction(s)` when `h2` is
null and otherwise calls `h2` and settles on the state `h2` requests. -/
theorem setStateFunction_overwrites (m : FSM States StateData EventData) (s : Nat)
    (h1 h2 : Option (stateFunctionT StateData EventData)) (hs : s < States) :
    ∃ m1 m2, setStateFunction m s h1 = some m1 ∧ setStateFunction m1 s h2 = some m2 ∧
      m2.stateFunctions s = h2 ∧
      (∀ t, t ≠ s → m2.stateFunctions t = m.stateFunctions t) ∧
      setStateFunction m s h2 = some m2 ∧
      (m.currentState = s → h2 = none →
        run m2 = some ⟨.error (.invalidStateFunction s), m2, []⟩) ∧
      (∀ f, m.currentState = s → h2 = some f → (f (view m) m.stateData).1 < States →
        ∃ r, run m2 = some r ∧
          r.calls.head? = some (.stateFunction s (view m) m.stateData) ∧
          (r.result = .ok (f (view m) m.stateData).1 ∨
            r.result = .error (.invalidTransition s (f (view m) m.stateData).1))) := by
  refine ⟨{ m with stateFunctions := set1 m.stateFunctions s h1 },
    { m with stateFunctions := set1 m.stateFunctions s h2 }, ?_, ?_, ?_, ?_, ?_, ?_, ?_⟩
  · simp [setStateFunction, hs]
  · simp only [setStateFunction, hs, if_true, Option.some.injEq]
    congr 1
    funext k
    simp only [set1]
    split_ifs <;> rfl
  · simp [set1]
  · intro t ht
    simp [set1, ht]
  · simp [setStateFunction, hs]
  · intro hcur hnone
    subst hcur
    subst hnone
    exact run_eq_of_no_handler _ hs (by simp [set1])
  · intro f hcur hsome hreq
    subst hcur
    subst hsome
    have hreg : set1 m.stateFunctions m.currentState (some f) m.currentState = some f := by
      simp [set1]
    cases hal : m.allowedTransitions m.currentState (f (view m) m.stateData).1 with
    | false =>
      exact ⟨_, run_eq_of_not_allowed _ f hs hreg hreq hal, rfl, Or.inr rfl⟩
    | true =>
      cases htf : m.transitionFunctions m.currentState (f (view m) m.stateData).1 with
      | none => exact ⟨_, run_eq_of_no_callback _ f hs hreg hreq hal htf, rfl, Or.inl rfl⟩
      | some t => exact ⟨_, run_eq_of_callback _ f t hs hreg hreq hal htf, rfl, Or.inl rfl⟩

/-- The theorem `setStateFunction_overwrites` at state 0 of `legalEngine`, with
`toOne` registered first and `toZero` second: the following `run` asks for the
edge (0, 0), which only `toZero` requests. -/
theorem setStateFunction_overwrites_witness :
    ∃ m1 m2, setStateFunction legalEngine 0 (some toOne) = some m1 ∧
      setStateFunction m1 0 (some toZero) = some m2 ∧
      m2.stateFunctions 0 = some toZero ∧
      (∀ t, t ≠ 0 → m2.stateFunctions t = legalEngine.stateFunctions t) ∧
      setStateFunction legalEngine 0 (some toZero) = some m2 ∧
      (legalEngine.currentState = 0 → some toZero = none →
        run m2 = some ⟨.error (.invalidStateFunction 0), m2, []⟩) ∧
      (∀ f, legalEngine.currentState = 0 → some toZero = some f →
        (f (view legalEngine) legalEngine.stateData).1 < 2 →
        ∃ r, run m2 = some r ∧
          r.calls.head? = some (.stateFunction 0 (view legalEngine) legalEngine.stateData) ∧
          (r.result = .ok (f (view legalEngine) legalEngine.stateData).1 ∨
            r.result = .error
              (.invalidTransition 0 (f (view legalEngine) legalEngine.stateData).1))) :=
  setStateFunction_overwrites legalEngine 0 (some toOne) (some toZero) (by decide)

/-! ## Construction -/

/-- C9: whatever the storage held before, the constructed engine has the given
initial state and `StateData`, an empty mailbox, no handler for any state below
`States`, and every edge between states below `States` disallowed and without a
callback; so `run` on it, for an in-range initial state `s0`, throws
`InvalidStateFunction(s0)` and changes nothing. -/
theorem construct_is_empty (raw : FSM States StateData EventData) (d : StateData)
    (s0 : Nat) :
    getState (construct raw d s0) = s0 ∧
    getEvent (construct raw d s0) = none ∧
    (construct raw d s0).stateData = d ∧
    (∀ i, i < States → (construct raw d s0).stateFunctions i = none) ∧
    (∀ i j, i < States → j < States →
      (construct raw d s0).allowedTransitions i j = false ∧
      (construct raw d s0).transitionFunctions i j = none) ∧
    (s0 < States →
      run (construct raw d s0) =
        some ⟨.error (.invalidStateFunction s0), construct raw d s0, []⟩) := by
  obtain ⟨h1, h2, _, h4, h5, h6⟩ := forLoop_clearRow_fields States
    ({ raw with currentState := s0, stateData := d, event := none } :
      FSM States StateData EventData)
  have hst : (construct raw d s0).currentState = s0 := h1
  have hsf : ∀ i, i < States → (construct raw d s0).stateFunctions i = none := by
    intro i hi
    have := h4 i
    simp only [hi, if_true] at this
    exact this
  refine ⟨hst, rfl, h2, hsf, ?_, ?_⟩
  · intro i j hi hj
    have a := h6 i j
    have b := h5 i j
    simp only [hi, hj, and_self, if_true] at a b
    exact ⟨a, b⟩
  · intro hs0
    have hrun := run_eq_of_no_handler (construct raw d s0) (by rw [hst]; exact hs0)
      (by rw [hst]; exact hsf s0 hs0)
    rw [hst] at hrun
    exact hrun

/-- The theorem `construct_is_empty` for two states over the storage
`indeterminate`, all of whose slots are set, at initial state 1. -/
theorem construct_is_empty_witness :
    (indeterminate 2 0 0 : FSM 2 Nat Nat).stateFunctions 1 ≠ none ∧
    (indeterminate 2 0 0 : FSM 2 Nat Nat).allowedTransitions 0 1 = true ∧
    (construct (indeterminate 2 0 0 : FSM 2 Nat Nat) 5 1).stateFunctions 1 = none ∧
    ((construct (indeterminate 2 0 0 : FSM 2 Nat Nat) 5 1).allowedTransitions 0 1 = false ∧
      (construct (indeterminate 2 0 0 : FSM 2 Nat Nat) 5 1).transitionFunctions 0 1 = none) ∧
    run (construct (indeterminate 2 0 0 : FSM 2 Nat Nat) 5 1) =
      some ⟨.error (.invalidStateFunction 1),
        construct (indeterminate 2 0 0 : FSM 2 Nat Nat) 5 1, []⟩ :=
  ⟨by simp [indeterminate], rfl,
    (construct_is_empty (indeterminate 2 0 0) 5 1).2.2.2.1 1 (by decide),
    (construct_is_empty (indeterminate 2 0 0) 5 1).2.2.2.2.1 0 1 (by decide) (by decide),
    (construct_is_empty (indeterminate 2 0 0) 5 1).2.2.2.2.2 (by decide)⟩

/-! ## The three-state scenario -/

/-- C10: in the three-state scenario, over any storage, the engine starts at
`Idle` with handlers for `Idle` and `Active` only and exactly the edges
`(Idle, Active)` and `(Active, Done)` allowed; the first `run` returns
`Active`, the second returns `Done`, and the third throws
`InvalidStateFunction(Done)` with the state still `Done`. -/
theorem three_state_scenario (raw : FSM 3 Unit Nat) :
    ∃ m r1 r2 r3, scenario raw = some m ∧ getState m = Idle ∧
      (List.range 3).map (fun s => (m.stateFunctions s).isSome) = [true, true, false] ∧
      (List.range 3).map (fun a => (List.range 3).map (m.allowedTransitions a)) =
        [[false, true, false], [false, false, true], [false, false, false]] ∧
      run m = some r1 ∧ r1.result = .ok Active ∧ getState r1.fsm = Active ∧
      run r1.fsm = some r2 ∧ r2.result = .ok Done ∧ getState r2.fsm = Done ∧
      run r2.fsm = some r3 ∧ r3.result = .error (.invalidStateFunction Done) ∧
      getState r3.fsm = Done :=
  ⟨_, _, _, _, rfl, rfl, rfl, rfl, rfl, rfl, rfl, rfl, rfl, rfl, rfl, rfl, rfl⟩

/-! ## What `run` and the registrations leave alone -/

/-- The three tables are the same before and after `run`, on every path, and
every call it makes receives the engine as it was when `run` was called. -/
theorem run_tables (m : FSM States StateData EventData)
    (r : RunStep States StateData EventData) (hrun : run m = some r) :
    r.fsm.transitionFunctions = m.transitionFunctions ∧
    r.fsm.allowedTransitions = m.allowedTransitions ∧
    r.fsm.stateFunctions = m.stateFunctions ∧
    (∀ c, c ∈ r.calls → c.ctx = view m) := by
  unfold run at hrun
  split at hrun
  · split at hrun
    · cases hrun
      exact ⟨rfl, rfl, rfl, by simp⟩
    · simp only at hrun
      split at hrun
      · split at hrun
        · split at hrun <;>
            (cases hrun
             refine ⟨rfl, rfl, rfl, ?_⟩
             intro c hc
             simp only [List.mem_cons, List.mem_singleton, List.not_mem_nil, or_false] at hc
             first
               | (rcases hc with hc | hc <;> (subst hc; rfl))
               | (subst hc; rfl))
        · cases hrun
          refine ⟨rfl, rfl, rfl, ?_⟩
          intro c hc
          simp only [List.mem_singleton] at hc
          subst hc
          rfl
      · cases hrun
  · cases hrun

/-- A `run` that throws leaves the current state and the mailbox as they
were, and makes no call of a transition callback. -/
theorem run_error_frame (m : FSM States StateData EventData)
    (r : RunStep States StateData EventData) (e : FsmError)
    (hrun : run m = some r) (herr : r.result = .error e) :
    r.fsm.currentState = m.currentState ∧ r.fsm.event = m.event ∧
    transitionCalls r.calls = 0 := by
  unfold run at hrun
  split at hrun
  · split at hrun
    · cases hrun
      exact ⟨rfl, rfl, rfl⟩
    · simp only at hrun
      split at hrun
      · split at hrun
        · split at hrun <;>
            (cases hrun
             cases herr)
        · cases hrun
          exact ⟨rfl, rfl, rfl⟩
      · cases hrun
  · cases hrun

/-- When `successfulRun` is false for `run`, the step `run` produced carries
an exception. -/
theorem error_of_not_successfulRun (m : FSM States StateData EventData)
    (r : RunStep States StateData EventData) (hrun : run m = some r)
    (hnot : successfulRun m .run = false) : ∃ e, r.result = .error e := by
  simp only [successfulRun, hrun] at hnot
  obtain ⟨res, fsm, calls⟩ := r
  cases res with
  | error e => exact ⟨e, rfl⟩
  | ok v => simp at hnot

/-- The operation `run` is defined exactly when `run` is, and gives the engine
of the step `run` produced. -/
theorem applyOp_run_eq_some (m m2 : FSM States StateData EventData)
    (hstep : applyOp m .run = some m2) : ∃ r, run m = some r ∧ r.fsm = m2 := by
  cases hr : run m with
  | none =>
    simp [applyOp, hr] at hstep
  | some r =>
    simp only [applyOp, hr, Option.map_some', Option.some.injEq] at hstep
    exact ⟨r, rfl, hstep⟩

/-- An operation that is not a `run` returning normally leaves the current
state as it was, and leaves the mailbox as it was unless it is a
`triggerEvent`, which stores its argument. -/
theorem applyOp_frame (m m2 : FSM States StateData EventData)
    (op : Operation StateData EventData)
    (hstep : applyOp m op = some m2) (hnot : successfulRun m op = false) :
    m2.currentState = m.currentState ∧
    (m2.event = m.event ∨ ∃ d, op = .triggerEvent d ∧ m2.event = some d) := by
  cases op with
  | run =>
    obtain ⟨r, hrun, hfsm⟩ := applyOp_run_eq_some m m2 hstep
    obtain ⟨e, herr⟩ := error_of_not_successfulRun m r hrun hnot
    obtain ⟨h1, h2, _⟩ := run_error_frame m r e hrun herr
    subst hfsm
    exact ⟨h1, Or.inl h2⟩
  | triggerEvent d =>
    simp only [applyOp, Option.some.injEq] at hstep
    subst hstep
    exact ⟨rfl, Or.inr ⟨d, rfl, rfl⟩⟩
  | getEvent =>
    simp only [applyOp, Option.some.injEq] at hstep
    subst hstep
    exact ⟨rfl, Or.inl rfl⟩
  | getState =>
    simp only [applyOp, Option.some.injEq] at hstep
    subst hstep
    exact ⟨rfl, Or.inl rfl⟩
  | setStateFunction s f =>
    simp only [applyOp, setStateFunction] at hstep
    split at hstep
    · cases hstep
      exact ⟨rfl, Or.inl rfl⟩
    · cases hstep
  | allowTransitionWith a b cb =>
    simp only [applyOp, allowTransitionWith] at hstep
    split at hstep
    · cases hstep
      exact ⟨rfl, Or.inl rfl⟩
    · cases hstep
  | allowTransition a b =>
    simp only [applyOp, allowTransition] at hstep
    split at hstep
    · cases hstep
      exact ⟨rfl, Or.inl rfl⟩
    · cases hstep

/-! ## Only a successful run step clears the mailbox or moves the state -/

/-- C11: on an engine whose mailbox holds `v`, `getEvent` leaves the engine as
it is, so a second `getEvent` gives `v` again; and after any one operation that
is not a `run` returning normally the mailbox is not empty: it holds the
argument after `triggerEvent` and still `v` after anything else, a `run` that
throws included. -/
theorem mailbox_cleared_only_by_successful_run (m : FSM States StateData EventData)
    (v : EventData) (hv : getEvent m = some v) :
    applyOp m .getEvent = some m ∧
    (∀ op m2, applyOp m op = some m2 → successfulRun m op = false →
      (getEvent m2).isSome = true ∧ ((∀ d, op ≠ .triggerEvent d) → getEvent m2 = some v)) ∧
    (∀ r e, run m = some r → r.result = .error e → getEvent r.fsm = some v) := by
  refine ⟨rfl, ?_, ?_⟩
  · intro op m2 hstep hnot
    obtain ⟨_, hev⟩ := applyOp_frame m m2 op hstep hnot
    rcases hev with hev | ⟨d, hop, hev⟩
    · have h2 : getEvent m2 = some v := by
        unfold getEvent at hv ⊢
        rw [hev, hv]
      exact ⟨by rw [h2]; rfl, fun _ => h2⟩
    · refine ⟨?_, fun hne => absurd hop (hne d)⟩
      unfold getEvent
      rw [hev]
      rfl
  · intro r e hrun herr
    obtain ⟨_, h2, _⟩ := run_error_frame m r e hrun herr
    unfold getEvent at hv ⊢
    rw [h2, hv]

/-- The theorem `mailbox_cleared_only_by_successful_run` at `illegalEngine`,
whose mailbox holds 3: a `run` that throws and a `triggerEvent(4)`. -/
theorem mailbox_cleared_only_by_successful_run_witness :
    getEvent illegalEngine = some 3 ∧
    applyOp illegalEngine .run = some illegalStep.fsm ∧
    getEvent illegalStep.fsm = some 3 ∧
    (getEvent (triggerEvent illegalEngine 4)).isSome = true :=
  ⟨rfl, rfl,
    ((mailbox_cleared_only_by_successful_run illegalEngine 3 rfl).2.1
      .run illegalStep.fsm rfl rfl).2 (fun _ h => Operation.noConfusion h),
    ((mailbox_cleared_only_by_successful_run illegalEngine 3 rfl).2.1
      (.triggerEvent 4) (triggerEvent illegalEngine 4) rfl rfl).1⟩

/-- C12: after any one operation that is not a `run` returning normally, and
in particular after a `run` that throws either exception, `getState` gives
what it gave before. -/
theorem state_changed_only_by_successful_run (m : FSM States StateData EventData) :
    (∀ op m2, applyOp m op = some m2 → successfulRun m op = false →
      getState m2 = getState m) ∧
    (∀ r s, run m = some r → r.result = .error (.invalidStateFunction s) →
      getState r.fsm = getState m) ∧
    (∀ r a b, run m = some r → r.result = .error (.invalidTransition a b) →
      getState r.fsm = getState m) := by
  refine ⟨?_, ?_, ?_⟩
  · intro op m2 hstep hnot
    exact (applyOp_frame m m2 op hstep hnot).1
  · intro r s hrun herr
    exact (run_error_frame m r _ hrun herr).1
  · intro r a b hrun herr
    exact (run_error_frame m r _ hrun herr).1

/-- The theorem `state_changed_only_by_successful_run` at `illegalEngine`: a
`run` that throws `InvalidTransition(0, 1)` and a `triggerEvent(4)` both leave
the state at 0. -/
theorem state_changed_only_by_successful_run_witness :
    run illegalEngine = some illegalStep ∧
    illegalStep.result = .error (.invalidTransition 0 1) ∧
    getState illegalStep.fsm = getState illegalEngine ∧
    getState (triggerEvent illegalEngine 4) = getState illegalEngine :=
  ⟨rfl, rfl,
    (state_changed_only_by_successful_run illegalEngine).2.2 illegalStep 0 1 rfl rfl,
    (state_changed_only_by_successful_run illegalEngine).1
      (.triggerEvent 4) (triggerEvent illegalEngine 4) rfl rfl⟩

/-! ## Retrying after `InvalidTransition` -/

/-- C13: the claim that a second `run` repeats the `InvalidTransition` of the
first fails on `retryEngine`: the first `run` throws `InvalidTransition(0, 1)`
and leaves the data at 1, on which the handler requests the allowed edge
(0, 0), so the second `run` returns 0. -/
theorem retry_repeats_failure_counterexample :
    ((run retryEngine).map fun r => (r.result, r.fsm.stateData)) =
      some (.error (.invalidTransition 0 1), 1) ∧
    ((run retryEngine).bind fun r => (run r.fsm).map fun r2 => r2.result) =
      some (.ok 0) :=
  ⟨rfl, rfl⟩

/-- C13, amended: when `run` throws `InvalidTransition(S, S')` and the handler
of `S`, called again on the `StateData` it left behind, requests the same state
(as it does when its request does not depend on the `StateData`, or when it
leaves the `StateData` as it found it), a second `run` with no operation in
between throws the same `InvalidTransition(S, S')`. -/
theorem retry_repeats_failure (m : FSM States StateData EventData)
    (r : RunStep States StateData EventData) (a b : Nat)
    (h : stateFunctionT StateData EventData)
    (hrun : run m = some r) (herr : r.result = .error (.invalidTransition a b))
    (hreg : m.stateFunctions m.currentState = some h)
    (hsame : (h (view m) (h (view m) m.stateData).2).1 = (h (view m) m.stateData).1) :
    ∃ r2, run r.fsm = some r2 ∧ r2.result = .error (.invalidTransition a b) := by
  obtain ⟨h2, hreg2, ha, hb, hal, hfsm, _⟩ := run_invalidTransition_inv m r a b hrun herr
  rw [hreg] at hreg2
  cases hreg2
  have hcur : m.currentState < States := by
    unfold run at hrun
    split at hrun
    · assumption
    · cases hrun
  have hreq : (h (view m) m.stateData).1 < States := by
    unfold run at hrun
    simp only [hcur, hreg, if_true] at hrun
    split at hrun
    · assumption
    · cases hrun
  subst ha
  subst hb
  rw [hfsm]
  have hreq2 : (h (view m) (h (view m) m.stateData).2).1 < States := by
    rw [hsame]
    exact hreq
  have hal2 : m.allowedTransitions m.currentState
      (h (view m) (h (view m) m.stateData).2).1 = false := by
    rw [hsame]
    exact hal
  have hstep := run_eq_of_not_allowed
    ({ m with stateData := (h (view m) m.stateData).2 } : FSM States StateData EventData)
    h hcur hreg hreq2 hal2
  refine ⟨_, hstep, ?_⟩
  show Except.error (FsmError.invalidTransition m.currentState
    (h (view m) (h (view m) m.stateData).2).1) = _
  rw [hsame]

/-- The theorem `retry_repeats_failure` at `illegalEngine`, whose handler
`toOne` requests state 1 whatever the data. -/
theorem retry_repeats_failure_witness :
    run illegalEngine = some illegalStep ∧
    illegalStep.result = .error (.invalidTransition 0 1) ∧
    ∃ r2, run illegalStep.fsm = some r2 ∧ r2.result = .error (.invalidTransition 0 1) :=
  ⟨rfl, rfl, retry_repeats_failure illegalEngine illegalStep 0 1 toOne rfl rfl rfl rfl⟩

/-! ## The lock guard -/

/-- A body of reads, writes and calls, run with the mutex held and followed by
the release, keeps the lock discipline. -/
theorem lockDisciplineFrom_body (body : List MutexEvent)
    (hbody : ∀ e, e ∈ body → e = .member ∨ e = .invoke) :
    lockDisciplineFrom true (body ++ [.release]) = true := by
  induction body with
  | nil => rfl
  | cons e es ih =>
    have hes : ∀ x, x ∈ es → x = .member ∨ x = .invoke :=
      fun x hx => hbody x (List.mem_cons_of_mem e hx)
    rcases hbody e (List.mem_cons_self e es) with he | he <;>
      (subst he
       simp only [List.cons_append, lockDisciplineFrom, Bool.true_and]
       exact ih hes)

/-- A function body behind a lock guard keeps the lock discipline, starts by
acquiring the mutex and ends by releasing it. -/
theorem scopedLock_discipline (body : List MutexEvent)
    (hbody : ∀ e, e ∈ body → e = .member ∨ e = .invoke) :
    lockDiscipline (scopedLock body) = true ∧
    (scopedLock body).head? = some .acquire ∧
    (scopedLock body).getLast? = some .release := by
  refine ⟨?_, rfl, ?_⟩
  · simp only [lockDiscipline, scopedLock, lockDisciplineFrom, Bool.not_false, Bool.true_and]
    exact lockDisciplineFrom_body body hbody
  · show (MutexEvent.acquire :: (body ++ [MutexEvent.release])).getLast? = _
    rw [← List.cons_append, List.getLast?_concat]

/-- The statements of `run` behind its lock guard are reads, writes and calls
only, on every path. -/
theorem runBody_events (m : FSM States StateData EventData) :
    ∀ e, e ∈ runBody m → e = .member ∨ e = .invoke := by
  intro e he
  unfold runBody at he
  split at he
  · split at he
    · revert e
      decide
    · split at he
      · split at he
        · split at he <;>
            (revert e
             decide)
        · revert e
          decide
      · revert e
        decide
  · revert e
    decide

/-- The inner loop of the constructor adds writes only. -/
theorem construct_inner_events (k : Nat) (start : List MutexEvent)
    (hstart : ∀ e, e ∈ start → e = .member ∨ e = .invoke) :
    ∀ e, e ∈ forLoop k (fun _ t => t ++ [MutexEvent.member, MutexEvent.member]) start →
      e = .member ∨ e = .invoke := by
  induction k with
  | zero => exact hstart
  | succ k ih =>
    intro e he
    simp only [forLoop, List.mem_append, List.mem_cons, List.mem_singleton,
      List.not_mem_nil, or_false] at he
    rcases he with he | he | he
    · exact ih e he
    · exact Or.inl he
    · exact Or.inl he

/-- The two nested loops of the constructor make writes only. -/
theorem construct_loops_events (n k : Nat) :
    ∀ e, e ∈ forLoop n
        (fun _ tr =>
          forLoop k (fun _ t => t ++ [MutexEvent.member, MutexEvent.member])
            (tr ++ [MutexEvent.member]))
        [] → e = .member ∨ e = .invoke := by
  induction n with
  | zero =>
    intro e he
    simp [forLoop] at he
  | succ n ih =>
    intro e he
    simp only [forLoop] at he
    refine construct_inner_events k _ ?_ e he
    intro x hx
    simp only [List.mem_append, List.mem_singleton] at hx
    rcases hx with hx | hx
    · exact ih x hx
    · exact Or.inl hx

/-- C14: the claim that every public operation holds the mutex fails for
`getEvent` and `getState`: each reads its member without acquiring the mutex,
so its event list breaks the lock discipline. -/
theorem every_operation_locks_counterexample :
    mutexEvents legalEngine .getEvent = [.member] ∧
    lockDiscipline (mutexEvents legalEngine .getEvent) = false ∧
    mutexEvents legalEngine .getState = [.member] ∧
    lockDiscipline (mutexEvents legalEngine .getState) = false :=
  ⟨rfl, rfl, rfl, rfl⟩

/-- C14, amended: the constructor body and every operation other than
`getEvent` and `getState` (`run` on each of its paths, the two that throw
included, `triggerEvent`, `setStateFunction` and both overloads of
`allowTransition`) acquire the mutex first, touch members and call through
function pointers only while holding it, and release it last; `getEvent` and
`getState` read their member without touching the mutex. -/
theorem guarded_operations_lock (m : FSM States StateData EventData)
    (op : Operation StateData EventData)
    (hne : op ≠ .getEvent) (hns : op ≠ .getState) :
    lockDiscipline (mutexEvents m op) = true ∧
    (mutexEvents m op).head? = some .acquire ∧
    (mutexEvents m op).getLast? = some .release ∧
    lockDiscipline (constructEvents States) = true ∧
    mutexEvents m .getEvent = [.member] ∧ mutexEvents m .getState = [.member] := by
  have hone : ∀ e, e ∈ [MutexEvent.member] → e = .member ∨ e = .invoke := by
    intro e he
    simp only [List.mem_singleton] at he
    exact Or.inl he
  have htwo : ∀ e, e ∈ [MutexEvent.member, MutexEvent.member] →
      e = .member ∨ e = .invoke := by
    intro e he
    simp only [List.mem_cons, List.mem_singleton, List.not_mem_nil, or_false, or_self] at he
    exact Or.inl he
  have hcons : lockDiscipline (constructEvents States) = true := by
    refine (scopedLock_discipline _ ?_).1
    intro e he
    simp only [List.mem_append, List.mem_singleton] at he
    rcases he with he | he
    · exact construct_loops_events States States e he
    · exact Or.inl he
  have hop : lockDiscipline (mutexEvents m op) = true ∧
      (mutexEvents m op).head? = some .acquire ∧
      (mutexEvents m op).getLast? = some .release := by
    cases op with
    | run => exact scopedLock_discipline _ (runBody_events m)
    | triggerEvent d => exact scopedLock_discipline _ hone
    | getEvent => exact absurd rfl hne
    | getState => exact absurd rfl hns
    | setStateFunction s f => exact scopedLock_discipline _ hone
    | allowTransitionWith a b cb => exact scopedLock_discipline _ htwo
    | allowTransition a b => exact scopedLock_discipline _ hone
  exact ⟨hop.1, hop.2.1, hop.2.2, hcons, rfl, rfl⟩

/-- The theorem `guarded_operations_lock` at the `run` of `illegalEngine`,
which throws `InvalidTransition(0, 1)`. -/
theorem guarded_operations_lock_witness :
    run illegalEngine = some illegalStep ∧
    mutexEvents illegalEngine .run = [.acquire, .member, .invoke, .member, .release] ∧
    lockDiscipline (mutexEvents illegalEngine .run) = true ∧
    (mutexEvents illegalEngine .run).getLast? = some .release ∧
    lockDiscipline (constructEvents 2) = true :=
  ⟨rfl, rfl,
    (guarded_operations_lock illegalEngine .run
      (fun h => Operation.noConfusion h) (fun h => Operation.noConfusion h)).1,
    (guarded_operations_lock illegalEngine .run
      (fun h => Operation.noConfusion h) (fun h => Operation.noConfusion h)).2.2.1,
    (guarded_operations_lock illegalEngine .run
      (fun h => Operation.noConfusion h) (fun h => Operation.noConfusion h)).2.2.2.1⟩

/-! ## Invariants of the transition table -/

/-- One operation changes the two transition tables only where a registration
addresses them: the legality flag of an edge other than the one registered is
as before, the one registered is set; a callback slot changes only under the
three-parameter `allowTransition`, and then only the one addressed. -/
theorem applyOp_tables (m m2 : FSM States StateData EventData)
    (op : Operation StateData EventData) (hstep : applyOp m op = some m2) :
    (m2.allowedTransitions = m.allowedTransitions ∧
      m2.transitionFunctions = m.transitionFunctions) ∨
    (∃ src dst, src < States ∧ dst < States ∧ op = .allowTransition src dst ∧
      m2.allowedTransitions = set2 m.allowedTransitions src dst true ∧
      m2.transitionFunctions = m.transitionFunctions) ∨
    (∃ src dst cb, src < States ∧ dst < States ∧ op = .allowTransitionWith src dst cb ∧
      m2.allowedTransitions = set2 m.allowedTransitions src dst true ∧
      m2.transitionFunctions = set2 m.transitionFunctions src dst cb) := by
  cases op with
  | run =>
    obtain ⟨r, hrun, hfsm⟩ := applyOp_run_eq_some m m2 hstep
    obtain ⟨h1, h2, _, _⟩ := run_tables m r hrun
    subst hfsm
    exact Or.inl ⟨h2, h1⟩
  | triggerEvent d =>
    simp only [applyOp, Option.some.injEq] at hstep
    subst hstep
    exact Or.inl ⟨rfl, rfl⟩
  | getEvent =>
    simp only [applyOp, Option.some.injEq] at hstep
    subst hstep
    exact Or.inl ⟨rfl, rfl⟩
  | getState =>
    simp only [applyOp, Option.some.injEq] at hstep
    subst hstep
    exact Or.inl ⟨rfl, rfl⟩
  | setStateFunction s f =>
    simp only [applyOp, setStateFunction] at hstep
    split at hstep
    · cases hstep
      exact Or.inl ⟨rfl, rfl⟩
    · cases hstep
  | allowTransitionWith a b cb =>
    simp only [applyOp, allowTransitionWith] at hstep
    split at hstep
    · rename_i hab
      cases hstep
      exact Or.inr (Or.inr ⟨a, b, cb, hab.1, hab.2, rfl, rfl, rfl⟩)
    · cases hstep
  | allowTransition a b =>
    simp only [applyOp, allowTransition] at hstep
    split at hstep
    · rename_i hab
      cases hstep
      exact Or.inr (Or.inl ⟨a, b, hab.1, hab.2, rfl, rfl, rfl⟩)
    · cases hstep

/-- An edge that is allowed stays allowed under `set2 _ _ _ true`. -/
theorem set2_true_mono (t : Nat → Nat → Bool) (i j a b : Nat) (hal : t a b = true) :
    set2 t i j true a b = true := by
  unfold set2
  split
  · rfl
  · exact hal

/-- C15: the claim that an allowed edge is still allowed after any sequence of
operations on any arguments fails at an argument outside `[0, States)`: the edge
(0, 1) of the two-state `legalEngine` is allowed, and the registration of the
edge (2, 0) with a null callback indexes both tables out of range, so there is
no engine afterwards in which the edge is allowed. -/
theorem legality_never_revoked_counterexample :
    legalEngine.allowedTransitions 0 1 = true ∧
    runOps legalEngine [.allowTransitionWith 2 0 none] = none ∧
    ¬ ∃ m2, runOps legalEngine [.allowTransitionWith 2 0 none] = some m2 ∧
      m2.allowedTransitions 0 1 = true :=
  ⟨rfl, rfl, fun ⟨_, h, _⟩ => Option.noConfusion h⟩

/-- C15, amended: an edge that is allowed in an engine is allowed in the engine
after any sequence of operations none of which indexes a table out of range. -/
theorem legality_never_revoked (ops : List (Operation StateData EventData))
    (m m2 : FSM States StateData EventData) (hops : runOps m ops = some m2)
    (a b : Nat) (hal : m.allowedTransitions a b = true) :
    m2.allowedTransitions a b = true := by
  induction ops generalizing m with
  | nil =>
    simp only [runOps, Option.some.injEq] at hops
    subst hops
    exact hal
  | cons op ops ih =>
    simp only [runOps] at hops
    cases hstep : applyOp m op with
    | none => simp [hstep] at hops
    | some m1 =>
      rw [hstep] at hops
      refine ih m1 hops ?_
      rcases applyOp_tables m m1 op hstep with ⟨h1, _⟩ | ⟨i, j, _, _, _, h1, _⟩ |
          ⟨i, j, cb, _, _, _, h1, _⟩
      · rw [h1]
        exact hal
      · rw [h1]
        exact set2_true_mono _ i j a b hal
      · rw [h1]
        exact set2_true_mono _ i j a b hal

/-- The theorem `legality_never_revoked` at the edge (0, 1) of `legalEngine`,
after registering the edge (1, 0), posting an event and a `run` that takes the
edge (0, 1). -/
theorem legality_never_revoked_witness :
    legalEngine.allowedTransitions 0 1 = true ∧
    ∃ m2, runOps legalEngine [.allowTransition 1 0, .triggerEvent 4, .run] = some m2 ∧
      getState m2 = 1 ∧ m2.allowedTransitions 0 1 = true :=
  ⟨rfl, _, rfl, rfl,
    legality_never_revoked [.allowTransition 1 0, .triggerEvent 4, .run] legalEngine _
      rfl 0 1 rfl⟩

/-- The constructed engine has the given initial state, no handler below
`States`, and no allowed edge and no callback between states below `States`. -/
theorem construct_fields (raw : FSM States StateData EventData) (d : StateData)
    (s0 : Nat) :
    (construct raw d s0).currentState = s0 ∧
    (∀ i, i < States → (construct raw d s0).stateFunctions i = none) ∧
    (∀ i j, i < States → j < States →
      (construct raw d s0).allowedTransitions i j = false ∧
      (construct raw d s0).transitionFunctions i j = none) := by
  obtain ⟨h1, _, _, h4, h5, h6⟩ := forLoop_clearRow_fields States
    ({ raw with currentState := s0, stateData := d, event := none } :
      FSM States StateData EventData)
  refine ⟨h1, ?_, ?_⟩
  · intro i hi
    have := h4 i
    simp only [hi, if_true] at this
    exact this
  · intro i j hi hj
    have a := h6 i j
    have b := h5 i j
    simp only [hi, hj, and_self, if_true] at a b
    exact ⟨a, b⟩

/-- C19: in every engine reached from construction by a sequence of
operations, an edge between states below `States` whose callback slot is not
null is allowed. -/
theorem callback_only_on_allowed_edge (raw : FSM States StateData EventData)
    (d : StateData) (s0 : Nat) (ops : List (Operation StateData EventData))
    (m : FSM States StateData EventData)
    (hops : runOps (construct raw d s0) ops = some m)
    (a b : Nat) (ha : a < States) (hb : b < States)
    (hcb : (m.transitionFunctions a b).isSome = true) :
    m.allowedTransitions a b = true := by
  have hgen : ∀ (ops : List (Operation StateData EventData))
      (m1 m2 : FSM States StateData EventData),
      (∀ i j, i < States → j < States → (m1.transitionFunctions i j).isSome = true →
        m1.allowedTransitions i j = true) →
      runOps m1 ops = some m2 →
      ∀ i j, i < States → j < States → (m2.transitionFunctions i j).isSome = true →
        m2.allowedTransitions i j = true := by
    intro ops
    induction ops with
    | nil =>
      intro m1 m2 hinv hrun
      simp only [runOps, Option.some.injEq] at hrun
      subst hrun
      exact hinv
    | cons op ops ih =>
      intro m1 m2 hinv hrun
      simp only [runOps] at hrun
      cases hstep : applyOp m1 op with
      | none => simp [hstep] at hrun
      | some m3 =>
        rw [hstep] at hrun
        refine ih m3 m2 ?_ hrun
        intro i j hi hj hsome
        rcases applyOp_tables m1 m3 op hstep with ⟨h1, h2⟩ | ⟨x, y, _, _, _, h1, h2⟩ |
            ⟨x, y, cb, _, _, _, h1, h2⟩
        · rw [h1]
          rw [h2] at hsome
          exact hinv i j hi hj hsome
        · rw [h1]
          rw [h2] at hsome
          exact set2_true_mono _ x y i j (hinv i j hi hj hsome)
        · rw [h1]
          rw [h2] at hsome
          unfold set2 at hsome ⊢
          split
          · rfl
          · rename_i hne
            rw [if_neg hne] at hsome
            exact hinv i j hi hj hsome
  refine hgen ops (construct raw d s0) m ?_ hops a b ha hb hcb
  intro i j hi hj hsome
  rw [((construct_fields raw d s0).2.2 i j hi hj).2] at hsome
  cases hsome

/-- The theorem `callback_only_on_allowed_edge` for two states, after construction
over the storage `indeterminate` and the registration of the edge (0, 1) with
the callback `mark`. -/
theorem callback_only_on_allowed_edge_witness :
    ∃ m, runOps (construct (indeterminate 2 0 0) 5 0)
        [.setStateFunction 0 (some toOne), .allowTransitionWith 0 1 (some mark), .run] =
          some m ∧
      (m.transitionFunctions 0 1).isSome = true ∧ m.allowedTransitions 0 1 = true :=
  ⟨_, rfl, rfl,
    callback_only_on_allowed_edge (indeterminate 2 0 0) 5 0
      [.setStateFunction 0 (some toOne), .allowTransitionWith 0 1 (some mark), .run] _
      rfl 0 1 (by decide) (by decide) rfl⟩

/-! ## Index safety -/

/-- Whenever `run` is defined, the current state afterwards is below `States`. -/
theorem run_state_lt (m : FSM States StateData EventData)
    (r : RunStep States StateData EventData) (hrun : run m = some r) :
    r.fsm.currentState < States := by
  unfold run at hrun
  split at hrun
  · rename_i hcur
    split at hrun
    · cases hrun
      exact hcur
    · simp only at hrun
      split at hrun
      · rename_i hreq
        split at hrun
        · split at hrun <;>
            (cases hrun
             exact hreq)
        · cases hrun
          exact hcur
      · cases hrun
  · cases hrun

/-- With the current state below `States` and handlers that only request
states below `States`, `run` indexes its tables in range. -/
theorem run_isSome (m : FSM States StateData EventData)
    (hcur : m.currentState < States)
    (hsf : ∀ s, s < States → ∀ f, m.stateFunctions s = some f →
      ∀ ctx d, (f ctx d).1 < States) :
    (run m).isSome = true := by
  cases hreg : m.stateFunctions m.currentState with
  | none => rw [run_eq_of_no_handler m hcur hreg]; rfl
  | some f =>
    have hreq := hsf m.currentState hcur f hreg (view m) m.stateData
    cases hal : m.allowedTransitions m.currentState (f (view m) m.stateData).1 with
    | false => rw [run_eq_of_not_allowed m f hcur hreg hreq hal]; rfl
    | true =>
      cases htf : m.transitionFunctions m.currentState (f (view m) m.stateData).1 with
      | none => rw [run_eq_of_no_callback m f hcur hreg hreq hal htf]; rfl
      | some t => rw [run_eq_of_callback m f t hcur hreg hreq hal htf]; rfl

/-- An operation with in-range arguments, on an engine whose current state is
below `States` and whose handlers only request states below `States`, indexes
the tables in range and gives such an engine again. -/
theorem applyOp_inRange (m : FSM States StateData EventData)
    (op : Operation StateData EventData) (hop : op.inRange States)
    (hcur : m.currentState < States)
    (hsf : ∀ s, s < States → ∀ f, m.stateFunctions s = some f →
      ∀ ctx d, (f ctx d).1 < States) :
    ∃ m2, applyOp m op = some m2 ∧ m2.currentState < States ∧
      ∀ s, s < States → ∀ f, m2.stateFunctions s = some f →
        ∀ ctx d, (f ctx d).1 < States := by
  cases op with
  | run =>
    cases hrun : run m with
    | none =>
      have := run_isSome m hcur hsf
      rw [hrun] at this
      cases this
    | some r =>
      refine ⟨r.fsm, by simp [applyOp, hrun], run_state_lt m r hrun, ?_⟩
      rw [(run_tables m r hrun).2.2.1]
      exact hsf
  | triggerEvent d => exact ⟨_, rfl, hcur, hsf⟩
  | getEvent => exact ⟨_, rfl, hcur, hsf⟩
  | getState => exact ⟨_, rfl, hcur, hsf⟩
  | setStateFunction s f =>
    obtain ⟨hs, hf⟩ := hop
    refine ⟨{ m with stateFunctions := set1 m.stateFunctions s f }, ?_, hcur, ?_⟩
    · simp [applyOp, setStateFunction, hs]
    · intro t ht g hg ctx d
      simp only [set1] at hg
      split at hg
      · exact hf g hg ctx d
      · exact hsf t ht g hg ctx d
  | allowTransitionWith a b cb =>
    have hab : a < States ∧ b < States := hop
    refine ⟨{ m with
      allowedTransitions := set2 m.allowedTransitions a b true
      transitionFunctions := set2 m.transitionFunctions a b cb }, ?_, hcur, hsf⟩
    simp [applyOp, allowTransitionWith, hab]
  | allowTransition a b =>
    have hab : a < States ∧ b < States := hop
    refine ⟨{ m with allowedTransitions := set2 m.allowedTransitions a b true },
      ?_, hcur, hsf⟩
    simp [applyOp, allowTransition, hab]

/-- C16: when the initial state is below `States`, every state passed to a
registration is below `States` and every registered handler only requests
states below `States`, every operation of the sequence indexes the tables in
range, the engine reached has its current state below `States`, and `run` on it
indexes its tables in range. -/
theorem index_safety (raw : FSM States StateData EventData) (d : StateData)
    (s0 : Nat) (hs0 : s0 < States) (ops : List (Operation StateData EventData))
    (hops : ∀ op, op ∈ ops → op.inRange States) :
    ∃ m, runOps (construct raw d s0) ops = some m ∧ getState m < States ∧
      (run m).isSome = true := by
  have hgen : ∀ (ops : List (Operation StateData EventData))
      (m1 : FSM States StateData EventData),
      (∀ op, op ∈ ops → op.inRange States) →
      m1.currentState < States →
      (∀ s, s < States → ∀ f, m1.stateFunctions s = some f →
        ∀ ctx d, (f ctx d).1 < States) →
      ∃ m, runOps m1 ops = some m ∧ getState m < States ∧ (run m).isSome = true := by
    intro ops
    induction ops with
    | nil =>
      intro m1 _ hcur hsf
      exact ⟨m1, rfl, hcur, run_isSome m1 hcur hsf⟩
    | cons op ops ih =>
      intro m1 hall hcur hsf
      obtain ⟨m2, hstep, hcur2, hsf2⟩ :=
        applyOp_inRange m1 op (hall op (List.mem_cons_self op ops)) hcur hsf
      obtain ⟨m3, hrest, h3⟩ :=
        ih m2 (fun o ho => hall o (List.mem_cons_of_mem op ho)) hcur2 hsf2
      refine ⟨m3, ?_, h3⟩
      simp only [runOps, hstep, Option.some_bind]
      exact hrest
  obtain ⟨hst, hsf, _⟩ := construct_fields raw d s0
  refine hgen ops (construct raw d s0) hops (by rw [hst]; exact hs0) ?_
  intro s hs f hf
  rw [hsf s hs] at hf
  cases hf

/-- The theorem `index_safety` for two states over the storage `indeterminate`
with the operations `sampleOps`, all of whose arguments are in range. -/
theorem index_safety_witness :
    ∃ m, runOps (construct (indeterminate 2 0 0) 5 0) sampleOps = some m ∧
      getState m < 2 ∧ (run m).isSome = true :=
  index_safety (indeterminate 2 0 0) 5 0 (by decide) sampleOps (by
    intro op hop
    simp only [sampleOps, List.mem_cons, List.mem_singleton, List.not_mem_nil,
      or_false] at hop
    rcases hop with h | h | h | h | h | h <;> subst h <;>
      simp [Operation.inRange, toOne])

/-! ## What handlers and callbacks see, and when callbacks run -/

/-- C17: when `run` throws `InvalidTransition(S, S')`, the only call it made is
the call of the handler of `S`, no transition callback was called, and the
`StateData` afterwards is the one the handler left. -/
theorem invalidTransition_calls_no_callback (m : FSM States StateData EventData)
    (r : RunStep States StateData EventData) (a b : Nat)
    (hrun : run m = some r) (herr : r.result = .error (.invalidTransition a b)) :
    transitionCalls r.calls = 0 ∧
    ∃ h, m.stateFunctions a = some h ∧ a = getState m ∧
      b = (h (view m) m.stateData).1 ∧
      r.calls = [.stateFunction a (view m) m.stateData] ∧
      r.fsm.stateData = (h (view m) m.stateData).2 := by
  obtain ⟨h, hreg, ha, hb, _, hfsm, hcalls⟩ := run_invalidTransition_inv m r a b hrun herr
  subst ha
  refine ⟨?_, h, hreg, rfl, hb, hcalls, ?_⟩
  · rw [hcalls]
    rfl
  · rw [hfsm]

/-- The theorem `invalidTransition_calls_no_callback` at `illegalEngine`, whose
edge (0, 1) carries the callback `mark` but is not allowed: the data goes from
5 to 6 by the handler and `mark` does not run. -/
theorem invalidTransition_calls_no_callback_witness :
    (illegalEngine.transitionFunctions 0 1).isSome = true ∧
    run illegalEngine = some illegalStep ∧
    illegalStep.fsm.stateData = 6 ∧
    (transitionCalls illegalStep.calls = 0 ∧
      ∃ h, illegalEngine.stateFunctions 0 = some h ∧ 0 = getState illegalEngine ∧
        1 = (h (view illegalEngine) illegalEngine.stateData).1 ∧
        illegalStep.calls = [.stateFunction 0 (view illegalEngine) illegalEngine.stateData] ∧
        illegalStep.fsm.stateData = (h (view illegalEngine) illegalEngine.stateData).2) :=
  ⟨rfl, rfl, rfl, invalidTransition_calls_no_callback illegalEngine illegalStep 0 1 rfl rfl⟩

/-- Whenever `run` is defined, the current state is below `States` and so is
the state requested by the handler of the current state, if there is one. -/
theorem run_some_bounds (m : FSM States StateData EventData)
    (r : RunStep States StateData EventData) (hrun : run m = some r) :
    m.currentState < States ∧
    ∀ h, m.stateFunctions m.currentState = some h →
      (h (view m) m.stateData).1 < States := by
  have hcur : m.currentState < States := by
    unfold run at hrun
    split at hrun
    · assumption
    · cases hrun
  refine ⟨hcur, ?_⟩
  intro h hreg
  unfold run at hrun
  simp only [hcur, hreg, if_true] at hrun
  split at hrun
  · assumption
  · cases hrun

/-- C18: the handler of the current state, and the transition callback when
one is called, are applied to a context in which `getEvent` gives what the
mailbox held when `run` was called and `getState` gives the state `run` was
called in: the state `run` returns or reports, the calls it makes and the
`StateData` afterwards are those the handler and the callback compute from that
context; when `run` returns normally the mailbox is empty and the state is the
new one afterwards. -/
theorem run_calls_see_event (m : FSM States StateData EventData)
    (r : RunStep States StateData EventData) (hrun : run m = some r) :
    (∀ c, c ∈ r.calls → c.ctx.event = getEvent m ∧ c.ctx.state = getState m) ∧
    (∀ v, r.result = .ok v → getEvent r.fsm = none ∧ getState r.fsm = v) ∧
    (∀ h, m.stateFunctions (getState m) = some h →
      (r.result = .ok (h ⟨getState m, getEvent m⟩ m.stateData).1 ∨
        r.result = .error (.invalidTransition (getState m)
          (h ⟨getState m, getEvent m⟩ m.stateData).1)) ∧
      r.calls.head? =
        some (.stateFunction (getState m) ⟨getState m, getEvent m⟩ m.stateData) ∧
      (∀ e, r.result = .error e →
        r.fsm.stateData = (h ⟨getState m, getEvent m⟩ m.stateData).2 ∧
        r.calls = [.stateFunction (getState m) ⟨getState m, getEvent m⟩ m.stateData]) ∧
      (∀ v, r.result = .ok v → m.transitionFunctions (getState m) v = none →
        r.fsm.stateData = (h ⟨getState m, getEvent m⟩ m.stateData).2 ∧
        r.calls = [.stateFunction (getState m) ⟨getState m, getEvent m⟩ m.stateData]) ∧
      (∀ v cb, r.result = .ok v → m.transitionFunctions (getState m) v = some cb →
        r.fsm.stateData =
          cb ⟨getState m, getEvent m⟩ (h ⟨getState m, getEvent m⟩ m.stateData).2 ∧
        r.calls = [.stateFunction (getState m) ⟨getState m, getEvent m⟩ m.stateData,
          .transitionFunction (getState m) v ⟨getState m, getEvent m⟩
            (h ⟨getState m, getEvent m⟩ m.stateData).2])) := by
  refine ⟨?_, ?_, ?_⟩
  · intro c hc
    rw [(run_tables m r hrun).2.2.2 c hc]
    exact ⟨rfl, rfl⟩
  · intro v hok
    obtain ⟨_, _, _, _, hst, hev⟩ := run_ok_inv m r v hrun hok
    exact ⟨hev, hst⟩
  · intro h hreg
    obtain ⟨hcur, hb⟩ := run_some_bounds m r hrun
    have hreq := hb h hreg
    have hreg2 : m.stateFunctions m.currentState = some h := hreg
    cases hal : m.allowedTransitions m.currentState (h (view m) m.stateData).1 with
    | false =>
      rw [run_eq_of_not_allowed m h hcur hreg2 hreq hal] at hrun
      cases hrun
      refine ⟨Or.inr rfl, rfl, fun e _ => ⟨rfl, rfl⟩, ?_, ?_⟩
      · intro v hv
        cases hv
      · intro v cb hv
        cases hv
    | true =>
      cases htf : m.transitionFunctions m.currentState (h (view m) m.stateData).1 with
      | none =>
        rw [run_eq_of_no_callback m h hcur hreg2 hreq hal htf] at hrun
        cases hrun
        refine ⟨Or.inl rfl, rfl, ?_, ?_, ?_⟩
        · intro e he
          cases he
        · intro v _ _
          exact ⟨rfl, rfl⟩
        · intro v cb hv hcb
          cases hv
          have hcb2 : m.transitionFunctions m.currentState (h (view m) m.stateData).1 =
              some cb := hcb
          rw [htf] at hcb2
          cases hcb2
      | some t =>
        rw [run_eq_of_callback m h t hcur hreg2 hreq hal htf] at hrun
        cases hrun
        refine ⟨Or.inl rfl, rfl, ?_, ?_, ?_⟩
        · intro e he
          cases he
        · intro v hv hcb
          cases hv
          have hcb2 : m.transitionFunctions m.currentState (h (view m) m.stateData).1 =
              none := hcb
          rw [htf] at hcb2
          cases hcb2
        · intro v cb hv hcb
          cases hv
          have hcb2 : m.transitionFunctions m.currentState (h (view m) m.stateData).1 =
              some cb := hcb
          rw [htf] at hcb2
          cases hcb2
          exact ⟨rfl, rfl⟩

/-- The theorem `run_calls_see_event` at `echoEngine`, whose mailbox holds 1 and
whose handler requests the state named by the event: `run` returns 1, which it
could not on an empty mailbox, and the data 107 records that the callback saw
state 0 and event 1. -/
theorem run_calls_see_event_witness :
    run echoEngine = some echoStep ∧
    echoStep.result = .ok 1 ∧ echoStep.fsm.stateData = 107 ∧
    (echo ⟨0, none⟩ 5).1 = 0 ∧
    (echoStep.result = .ok (echo ⟨getState echoEngine, getEvent echoEngine⟩
        echoEngine.stateData).1 ∨
      echoStep.result = .error (.invalidTransition (getState echoEngine)
        (echo ⟨getState echoEngine, getEvent echoEngine⟩ echoEngine.stateData).1)) ∧
    echoStep.fsm.stateData =
      mark ⟨getState echoEngine, getEvent echoEngine⟩
        (echo ⟨getState echoEngine, getEvent echoEngine⟩ echoEngine.stateData).2 :=
  ⟨rfl, rfl, rfl, rfl,
    ((run_calls_see_event echoEngine echoStep rfl).2.2 echo rfl).1,
    (((run_calls_see_event echoEngine echoStep rfl).2.2 echo rfl).2.2.2.2 1 mark rfl rfl).1⟩

/-! ## Registration touches one slot -/

/-- C20: for an edge between states below `States`, each overload of
`allowTransition` leaves the legality flag and the callback of every other
edge as they were, the reversed edge included when the two states differ, and
leaves all handlers, the mailbox, the `StateData` and the current state as
they were. -/
theorem allowTransition_touches_one_edge (m : FSM States StateData EventData)
    (src dst : Nat) (cb : Option (transitionFunctionT StateData EventData))
    (hsrc : src < States) (hdst : dst < States) :
    ∃ m2 m3, allowTransition m src dst = some m2 ∧
      allowTransitionWith m src dst cb = some m3 ∧
      (∀ a b, ¬(a = src ∧ b = dst) →
        m2.allowedTransitions a b = m.allowedTransitions a b ∧
        m2.transitionFunctions a b = m.transitionFunctions a b ∧
        m3.allowedTransitions a b = m.allowedTransitions a b ∧
        m3.transitionFunctions a b = m.transitionFunctions a b) ∧
      (src ≠ dst →
        m2.allowedTransitions dst src = m.allowedTransitions dst src ∧
        m3.allowedTransitions dst src = m.allowedTransitions dst src) ∧
      m2.stateFunctions = m.stateFunctions ∧ m3.stateFunctions = m.stateFunctions ∧
      getEvent m2 = getEvent m ∧ getEvent m3 = getEvent m ∧
      m2.stateData = m.stateData ∧ m3.stateData = m.stateData ∧
      getState m2 = getState m ∧ getState m3 = getState m := by
  refine ⟨{ m with allowedTransitions := set2 m.allowedTransitions src dst true },
    { m with
      allowedTransitions := set2 m.allowedTransitions src dst true
      transitionFunctions := set2 m.transitionFunctions src dst cb },
    ?_, ?_, ?_, ?_, rfl, rfl, rfl, rfl, rfl, rfl, rfl, rfl⟩
  · simp [allowTransition, hsrc, hdst]
  · simp [allowTransitionWith, hsrc, hdst]
  · intro a b hne
    simp only [set2, if_neg hne, and_self]
  · intro hne
    have h2 : ¬(dst = src ∧ src = dst) := fun h => hne h.2
    simp only [set2, if_neg h2, and_self]

/-- The theorem `allowTransition_touches_one_edge` at the edge (1, 0) of
`illegalEngine`, which has no allowed edge: the reversed edge (0, 1) is still
not allowed afterwards and keeps its callback. -/
theorem allowTransition_touches_one_edge_witness :
    illegalEngine.allowedTransitions 0 1 = false ∧
    ∃ m2 m3, allowTransition illegalEngine 1 0 = some m2 ∧
      allowTransitionWith illegalEngine 1 0 (some mark) = some m3 ∧
      (∀ a b, ¬(a = 1 ∧ b = 0) →
        m2.allowedTransitions a b = illegalEngine.allowedTransitions a b ∧
        m2.transitionFunctions a b = illegalEngine.transitionFunctions a b ∧
        m3.allowedTransitions a b = illegalEngine.allowedTransitions a b ∧
        m3.transitionFunctions a b = illegalEngine.transitionFunctions a b) ∧
      (1 ≠ 0 →
        m2.allowedTransitions 0 1 = illegalEngine.allowedTransitions 0 1 ∧
        m3.allowedTransitions 0 1 = illegalEngine.allowedTransitions 0 1) ∧
      m2.stateFunctions = illegalEngine.stateFunctions ∧
      m3.stateFunctions = illegalEngine.stateFunctions ∧
      getEvent m2 = getEvent illegalEngine ∧ getEvent m3 = getEvent illegalEngine ∧
      m2.stateData = illegalEngine.stateData ∧ m3.stateData = illegalEngine.stateData ∧
      getState m2 = getState illegalEngine ∧ getState m3 = getState illegalEngine :=
  ⟨rfl, allowTransition_touches_one_edge illegalEngine 1 0 (some mark) (by decide) (by decide)⟩

end FsmCpp
